import Mathlib

/-!
Verification development for the zylo tree-walking evaluator
(src/internal/evaluator/evaluator.go). The evaluator's runtime values,
environments and statement/expression evaluation are shallowly embedded as
executable Lean definitions; mutable Go pointers (the List object and the
Environment) become explicit heaps of numbered cells inside an `EvalState`,
and the Go `(Value, error)` return pairs become `EvalState × Except String
Value` (the state is returned on the error path as well, mirroring the fact
that the Go `Evaluator` struct keeps its mutated fields when an error is
returned and `defer` still restores `e.env`).

Deliberate abstractions, none of which any theorem below depends on:
64-bit IEEE floats are modelled by `Rat` (exact arithmetic, exact zero
test); Go's `%g`/`%v` formatting is abstracted by `floatRepr`/`goValueFmt`;
console I/O builtins (`show.log`, `read.line`, `read.int`, `getInput`) and
`to_number`'s float parsing are represented by an explicit error result,
since no claim invokes them; Go byte-level string indexing and `len` are
modelled at character level; the `Hash` object kind is omitted (no claim
touches it). Integer arithmetic wraps at 64 bits exactly as Go's int64
does (`wrap64`).
-/

namespace ZyloEval

/- AST fragment of src/internal/ast/ast.go, restricted to the node kinds the
evaluator of evaluator.go dispatches on and the claims exercise. Assignment
is the binary operator "=" exactly as in the parser's output. -/
mutual

inductive Expr where
  | ident (name : String)
  | strLit (s : String)
  | intLit (n : Int)
  | floatLit (q : Rat)
  | boolLit (b : Bool)
  | nullLit
  | listLit (elems : List Expr)
  | binop (op : String) (l r : Expr)
  | unop (op : String) (r : Expr)
  | call (fn : Expr) (args : List Expr)
  | member (obj : Expr) (prop : String)
  | indexE (l i : Expr)
  | thisE

inductive Stmt where
  | varDecl (name : String) (value : Option Expr)
  | exprStmt (e : Option Expr)
  | funcDecl (name : String) (params : List String) (body : Block)
  | returnStmt (value : Option Expr)
  | ifStmt (cond : Expr) (conseq : Block) (alt : Option Block)
  | whileStmt (cond : Expr) (body : Block)
  | forIn (name : String) (iterable : Expr) (body : Block)
  | breakStmt
  | continueStmt
  | tryStmt (tryBlock : Option Block) (catchClause : Option (String × Block)) (finallyBlock : Option Block)
  | throwStmt (exception : Expr)
  | importStmt (moduleName : String)
  | blockStmt (b : Block)
  | classDecl (name : String) (attrs : List (String × Option Expr)) (methods : List (String × List String × Block))

inductive Block where
  | mk (stmts : List Stmt)

end

/-- Statement list owned by a Block (ast.BlockStatement.Statements). -/
def Block.stmts : Block → List Stmt
  | .mk s => s

/-- ZyloFunction of evaluator.go: name, parameter names, body block and the
environment (heap id) captured at definition time. -/
structure FuncData where
  name : String
  params : List String
  body : Block
  envId : Nat

/-- Identifiers for the builtin callables installed by InitBuiltins, plus the
three List-method builtins returned by evaluateMemberExpression, which
capture the pointer (heap address) of the receiving List exactly as the Go
closures capture `list`. -/
inductive BuiltinKind where
  | showLog
  | readLine
  | readInt
  | stringConv
  | lenB
  | splitB
  | toNumber
  | zrSplit
  | tryB
  | getInputB
  | addB
  | subB
  | mulB
  | divB
  | listGet (addr : Nat)
  | listAppend (addr : Nat)
  | listLen (addr : Nat)

mutual

/- ZyloClass of evaluator.go: name, default attribute values (evaluated once
at class-definition time), method table, and the optional init method. -/
inductive ClassData where
  | mk (name : String) (attrs : List (String × Value)) (methods : List (String × FuncData)) (initM : Option FuncData)

/- Runtime value of evaluator.go. A List value is a pointer: it holds the
address of a cell in the state's list heap, so aliased Lists share mutation,
as the Go `*List` does. VInstance carries its class and its field map
(evaluator.go never mutates an instance's field map after instantiateClass
builds it, so value semantics for the map itself is observationally exact;
the mutable content sits behind the List addresses stored in the fields). -/
inductive Value where
  | VNull
  | VBool (b : Bool)
  | VInt (n : Int)
  | VFloat (q : Rat)
  | VString (s : String)
  | VList (addr : Nat)
  | VBuiltin (k : BuiltinKind)
  | VFunc (f : FuncData)
  | VClass (c : ClassData)
  | VInstance (c : ClassData) (fields : List (String × Value))
  | VBoundMethod (c : ClassData) (fields : List (String × Value)) (m : FuncData)
  | VBreak
  | VContinue

end

/-- Class name accessor. -/
def ClassData.name : ClassData → String
  | .mk n _ _ _ => n

/-- Default attribute values of a class. -/
def ClassData.attrs : ClassData → List (String × Value)
  | .mk _ a _ _ => a

/-- Method table of a class. -/
def ClassData.methods : ClassData → List (String × FuncData)
  | .mk _ _ m _ => m

/-- Optional init method of a class. -/
def ClassData.initM : ClassData → Option FuncData
  | .mk _ _ _ i => i

/-- Association-list lookup, the model of a Go map read. -/
def alGet {κ α : Type} [DecidableEq κ] : List (κ × α) → κ → Option α
  | [], _ => none
  | (k, v) :: rest, key => if k = key then some v else alGet rest key

/-- Association-list write, the model of a Go map write: replace the first
binding of the key or append a new one. -/
def alSet {κ α : Type} [DecidableEq κ] : List (κ × α) → κ → α → List (κ × α)
  | [], key, v => [(key, v)]
  | (k, w) :: rest, key, v => if k = key then (k, v) :: rest else (k, w) :: alSet rest key v

/-- Update the entry at a key with a function, leaving other entries alone. -/
def alUpd {κ α : Type} [DecidableEq κ] : List (κ × α) → κ → (α → α) → List (κ × α)
  | [], _, _ => []
  | (k, w) :: rest, key, g => if k = key then (k, g w) :: rest else (k, w) :: alUpd rest key g

/-- Environment frame: the name-to-value map of one Environment and the
pointer to its parent (none for the global scope). -/
structure Frame where
  vars : List (String × Value)
  parent : Option Nat

/-- Evaluator state: the current environment pointer (the Go e.env), the heap
of environment frames, the heap of List cells, and the two fresh-address
counters. -/
structure EvalState where
  envId : Nat
  envs : List (Nat × Frame)
  listH : List (Nat × List Value)
  nextEnv : Nat
  nextList : Nat

/-- Frame stored at an environment id. -/
def findEnv (st : EvalState) (id : Nat) : Option Frame :=
  alGet st.envs id

/-- Environment.Get walking the parent chain, fuelled: in every state the
interpreter builds, a frame's parent id is smaller than its own id, so fuel
id+1 always suffices; on a malformed state the walk just stops. -/
def envGetAux : Nat → EvalState → Nat → String → Option Value
  | 0, _, _, _ => none
  | fuel + 1, st, id, name =>
    match findEnv st id with
    | none => none
    | some fr =>
      match alGet fr.vars name with
      | some v => some v
      | none =>
        match fr.parent with
        | none => none
        | some p => envGetAux fuel st p name

/-- Environment.Get from the current environment (e.env.Get). -/
def envGet (st : EvalState) (name : String) : Option Value :=
  envGetAux (st.envId + 1) st st.envId name

/-- Environment.Set on the frame with the given id. -/
def setVarIn (st : EvalState) (id : Nat) (name : String) (v : Value) : EvalState :=
  { st with envs := alUpd st.envs id (fun fr => { fr with vars := alSet fr.vars name v }) }

/-- e.env.Set: write into the current frame only (never the parent chain). -/
def setVarCur (st : EvalState) (name : String) (v : Value) : EvalState :=
  setVarIn st st.envId name v

/-- NewChildEnvironment under an explicit parent id; returns the fresh id. -/
def allocEnvUnder (st : EvalState) (pid : Nat) : Nat × EvalState :=
  (st.nextEnv,
   { st with envs := (st.nextEnv, ⟨[], some pid⟩) :: st.envs, nextEnv := st.nextEnv + 1 })

/-- Allocate a fresh List cell (the Go &List value); returns its address. -/
def allocList (st : EvalState) (items : List Value) : Nat × EvalState :=
  (st.nextList,
   { st with listH := (st.nextList, items) :: st.listH, nextList := st.nextList + 1 })

/-- Items stored at a List address. -/
def getList (st : EvalState) (addr : Nat) : Option (List Value) :=
  alGet st.listH addr

/-- Overwrite the items at a List address (the in-place slice mutation of
List.Append). -/
def setList (st : EvalState) (addr : Nat) (items : List Value) : EvalState :=
  { st with listH := alUpd st.listH addr (fun _ => items) }

/-- Go int64 two's-complement wrap-around, applied wherever evaluator.go
performs int64 arithmetic. -/
def wrap64 (x : Int) : Int :=
  (x + 2 ^ 63) % 2 ^ 64 - 2 ^ 63

/-- The Go %T type string of each runtime value kind, used verbatim inside
evaluator.go's error messages. -/
def typeName : Value → String
  | .VNull => "*evaluator.Null"
  | .VBool _ => "*evaluator.Boolean"
  | .VInt _ => "*evaluator.Integer"
  | .VFloat _ => "*evaluator.Float"
  | .VString _ => "*evaluator.String"
  | .VList _ => "*evaluator.List"
  | .VBuiltin _ => "*evaluator.BuiltinFunction"
  | .VFunc _ => "*evaluator.ZyloFunction"
  | .VClass _ => "*evaluator.ZyloClass"
  | .VInstance _ _ => "*evaluator.ZyloInstance"
  | .VBoundMethod _ _ _ => "*evaluator.BoundMethod"
  | .VBreak => "*evaluator.BreakValue"
  | .VContinue => "*evaluator.ContinueValue"

/-- Rendering of a Float value, abstracting Go's %g formatting; no theorem
below depends on its output. -/
def floatRepr (q : Rat) : String :=
  toString q

/-- Rendering of a value under Go's %v verb, abstracting its output; only the
unreachable default case of the `string` builtin uses it and no theorem
below depends on it. -/
def goValueFmt (v : Value) : String :=
  typeName v

/-- isTruthy of evaluator.go. Its Go argument is the interface type Value,
which can hold the absent value nil (modelled by `none`) or any runtime
object (modelled by `some`): the function returns false for nil, a
Boolean's own value, nonzero for Integer, nonempty for String, and true
for every other object, including the Null object. -/
def isTruthy : Option Value → Bool
  | none => false
  | some (.VBool b) => b
  | some (.VInt n) => n != 0
  | some (.VString s) => s.length > 0
  | some _ => true

/-- The unsupported-operator error of applyOperator, with the Go %T names. -/
def unsupportedOp (op : String) (l r : Value) : String :=
  "operador '" ++ op ++ "' no soportado para tipos " ++ typeName l ++ " y " ++ typeName r

/-- applyOperator of evaluator.go (lines 1270-1527), a pure function of the
operator string and the two operand values. The match arms reproduce the
order of the Go type switches in each case: for "+" the String cases come
first (concatenation, stringifying an Integer with %d and a Float with %g),
then the four numeric cases; "-", "*" have only numeric cases; "/" checks
the divisor against zero in all four numeric pairings before dividing
(int64 division truncates toward zero, Int.tdiv, and x / -1 wraps);
"==" and "!=" compare within String, Integer/Float (with Integer-to-Float
promotion), and Boolean, and fall through to the constant false (resp.
true) for every other pairing, Null included; the four ordering operators
have only numeric cases; "&&" and "||" apply isTruthy to both already
evaluated operands. Everything else is the unsupported-operator error. -/
def applyOperator (op : String) (l r : Value) : Except String Value :=
  match op with
  | "+" =>
    match l, r with
    | .VString a, .VString b => .ok (.VString (a ++ b))
    | .VString a, .VInt n => .ok (.VString (a ++ toString n))
    | .VString a, .VFloat q => .ok (.VString (a ++ floatRepr q))
    | .VInt n, .VString b => .ok (.VString (toString n ++ b))
    | .VFloat q, .VString b => .ok (.VString (floatRepr q ++ b))
    | .VInt a, .VInt b => .ok (.VInt (wrap64 (a + b)))
    | .VInt a, .VFloat b => .ok (.VFloat (a + b))
    | .VFloat a, .VInt b => .ok (.VFloat (a + b))
    | .VFloat a, .VFloat b => .ok (.VFloat (a + b))
    | _, _ => .error (unsupportedOp op l r)
  | "-" =>
    match l, r with
    | .VInt a, .VInt b => .ok (.VInt (wrap64 (a - b)))
    | .VInt a, .VFloat b => .ok (.VFloat (a - b))
    | .VFloat a, .VInt b => .ok (.VFloat (a - b))
    | .VFloat a, .VFloat b => .ok (.VFloat (a - b))
    | _, _ => .error (unsupportedOp op l r)
  | "*" =>
    match l, r with
    | .VInt a, .VInt b => .ok (.VInt (wrap64 (a * b)))
    | .VInt a, .VFloat b => .ok (.VFloat (a * b))
    | .VFloat a, .VInt b => .ok (.VFloat (a * b))
    | .VFloat a, .VFloat b => .ok (.VFloat (a * b))
    | _, _ => .error (unsupportedOp op l r)
  | "/" =>
    match l, r with
    | .VInt a, .VInt b =>
      if b = 0 then .error "división por cero" else .ok (.VInt (wrap64 (Int.tdiv a b)))
    | .VInt a, .VFloat b =>
      if b = 0 then .error "división por cero" else .ok (.VFloat (a / b))
    | .VFloat a, .VInt b =>
      if b = 0 then .error "división por cero" else .ok (.VFloat (a / (b : Rat)))
    | .VFloat a, .VFloat b =>
      if b = 0 then .error "división por cero" else .ok (.VFloat (a / b))
    | _, _ => .error (unsupportedOp op l r)
  | "==" =>
    match l, r with
    | .VString a, .VString b => .ok (.VBool (a == b))
    | .VInt a, .VInt b => .ok (.VBool (a == b))
    | .VInt a, .VFloat b => .ok (.VBool ((a : Rat) == b))
    | .VFloat a, .VInt b => .ok (.VBool (a == (b : Rat)))
    | .VFloat a, .VFloat b => .ok (.VBool (a == b))
    | .VBool a, .VBool b => .ok (.VBool (a == b))
    | _, _ => .ok (.VBool false)
  | "!=" =>
    match l, r with
    | .VString a, .VString b => .ok (.VBool (a != b))
    | .VInt a, .VInt b => .ok (.VBool (a != b))
    | .VInt a, .VFloat b => .ok (.VBool ((a : Rat) != b))
    | .VFloat a, .VInt b => .ok (.VBool (a != (b : Rat)))
    | .VFloat a, .VFloat b => .ok (.VBool (a != b))
    | .VBool a, .VBool b => .ok (.VBool (a != b))
    | _, _ => .ok (.VBool true)
  | "<" =>
    match l, r with
    | .VInt a, .VInt b => .ok (.VBool (decide (a < b)))
    | .VInt a, .VFloat b => .ok (.VBool (decide ((a : Rat) < b)))
    | .VFloat a, .VInt b => .ok (.VBool (decide (a < (b : Rat))))
    | .VFloat a, .VFloat b => .ok (.VBool (decide (a < b)))
    | _, _ => .error (unsupportedOp op l r)
  | ">" =>
    match l, r with
    | .VInt a, .VInt b => .ok (.VBool (decide (a > b)))
    | .VInt a, .VFloat b => .ok (.VBool (decide ((a : Rat) > b)))
    | .VFloat a, .VInt b => .ok (.VBool (decide (a > (b : Rat))))
    | .VFloat a, .VFloat b => .ok (.VBool (decide (a > b)))
    | _, _ => .error (unsupportedOp op l r)
  | "<=" =>
    match l, r with
    | .VInt a, .VInt b => .ok (.VBool (decide (a ≤ b)))
    | .VInt a, .VFloat b => .ok (.VBool (decide ((a : Rat) ≤ b)))
    | .VFloat a, .VInt b => .ok (.VBool (decide (a ≤ (b : Rat))))
    | .VFloat a, .VFloat b => .ok (.VBool (decide (a ≤ b)))
    | _, _ => .error (unsupportedOp op l r)
  | ">=" =>
    match l, r with
    | .VInt a, .VInt b => .ok (.VBool (decide (a ≥ b)))
    | .VInt a, .VFloat b => .ok (.VBool (decide ((a : Rat) ≥ b)))
    | .VFloat a, .VInt b => .ok (.VBool (decide (a ≥ (b : Rat))))
    | .VFloat a, .VFloat b => .ok (.VBool (decide (a ≥ b)))
    | _, _ => .error (unsupportedOp op l r)
  | "&&" =>
    if isTruthy (some l) then .ok (.VBool (isTruthy (some r))) else .ok (.VBool false)
  | "||" =>
    if isTruthy (some l) then .ok (.VBool true) else .ok (.VBool (isTruthy (some r)))
  | _ => .error (unsupportedOp op l r)

/-- BreakValue type test of the Go loops. -/
def isBreak : Value → Bool
  | .VBreak => true
  | _ => false

/-- Break/Continue sentinel test used by the statement loops. -/
def isBC : Value → Bool
  | .VBreak => true
  | .VContinue => true
  | _ => false

/-- Result of evaluating one statement or expression: the state after the
step and either a value or the terminal error. -/
abbrev Res := EvalState × Except String Value

/-- Result of evaluating an argument list. -/
abbrev ResL := EvalState × Except String (List Value)

/-- Result of evaluating a class's attribute initializers. -/
abbrev ResA := EvalState × Except String (List (String × Value))

/-- Sequencing with the Go early-return-on-error discipline. -/
def bindR (r : Res) (k : Value → EvalState → Res) : Res :=
  match r with
  | (st, .error e) => (st, .error e)
  | (st, .ok v) => k v st

/-- Sequencing an argument-list evaluation. -/
def bindL (r : ResL) (k : List Value → EvalState → Res) : Res :=
  match r with
  | (st, .error e) => (st, .error e)
  | (st, .ok vs) => k vs st

/-- indexValue of evaluator.go: list indexing with bounds check and string
indexing (Go indexes bytes; modelled at character granularity, which no
claim distinguishes). -/
def indexValue (st : EvalState) (l i : Value) : Except String Value :=
  match l with
  | .VList addr =>
    match i with
    | .VInt n =>
      match getList st addr with
      | none => .error "index out of bounds"
      | some items =>
        if h : 0 ≤ n ∧ n.toNat < items.length then
          .ok (items.get ⟨n.toNat, h.2⟩)
        else .error "index out of bounds"
    | _ => .error "list index must be integer"
  | .VString s =>
    match i with
    | .VInt n =>
      if h : 0 ≤ n ∧ n.toNat < s.data.length then
        .ok (.VString (String.mk [s.data.get ⟨n.toNat, h.2⟩]))
      else .error "index out of bounds"
    | _ => .error "string index must be integer"
  | _ => .error ("cannot index " ++ typeName l)

/-- Member access on an already evaluated object, the tail of
evaluateMemberExpression: the three List method builtins capture the List's
address like the Go closures capture the pointer; instance lookup checks
fields first and then the class's method table, yielding a bound method.
The Go branch matching an *ast.Identifier value is dead code (runtime
values are never AST nodes) and is omitted. -/
def memberOnValue (prop : String) (v : Value) : Except String Value :=
  match v with
  | .VList addr =>
    match prop with
    | "Get" => .ok (.VBuiltin (.listGet addr))
    | "Append" => .ok (.VBuiltin (.listAppend addr))
    | "Len" => .ok (.VBuiltin (.listLen addr))
    | _ => .error ("method '" ++ prop ++ "' not found on List")
  | .VInstance c fields =>
    match alGet fields prop with
    | some fv => .ok fv
    | none =>
      match alGet c.methods prop with
      | some m => .ok (.VBoundMethod c fields m)
      | none => .error ("property '" ++ prop ++ "' not found on instance of " ++ c.name)
  | _ => .error ("cannot access property '" ++ prop ++ "' on " ++ typeName v)

/-- Positional parameter binding of callZyloFunction / callBoundMethod /
instantiateClass: parameters are bound while arguments remain (extra
arguments ignored, missing parameters left unbound), written into the
frame with the given id. -/
def bindParams (st : EvalState) (id : Nat) : List String → List Value → EvalState
  | [], _ => st
  | _, [] => st
  | p :: ps, a :: as => bindParams (setVarIn st id p a) id ps as

mutual

/-- evaluateExpression of evaluator.go, fuelled (the fuel bounds recursion
depth; every recursive call of the interpreter decrements it). -/
def evalExpr : Nat → Expr → EvalState → Res
  | 0, _, st => (st, .error "evaluation fuel exhausted")
  | fuel + 1, e, st =>
    match e with
    | .ident name =>
      match envGet st name with
      | some v => (st, .ok v)
      | none => (st, .error ("variable no definida: " ++ name))
    | .strLit s => (st, .ok (.VString s))
    | .intLit n => (st, .ok (.VInt n))
    | .floatLit q => (st, .ok (.VFloat q))
    | .boolLit b => (st, .ok (.VBool b))
    | .nullLit => (st, .ok .VNull)
    | .listLit elems =>
      bindL (evalExprList fuel elems st) fun vs st1 =>
        let (addr, st2) := allocList st1 vs
        (st2, .ok (.VList addr))
    | .binop op lhs rhs =>
      if op = "=" then
        match lhs with
        | .ident name =>
          bindR (evalExpr fuel rhs st) fun v st1 =>
            match envGet st1 name with
            | none => (st1, .error ("variable no definida: " ++ name))
            | some _ => (setVarCur st1 name v, .ok v)
        | _ => (st, .error "left side of assignment must be an identifier")
      else
        bindR (evalExpr fuel lhs st) fun lv st1 =>
          bindR (evalExpr fuel rhs st1) fun rv st2 =>
            (st2, applyOperator op lv rv)
    | .unop op rhs =>
      bindR (evalExpr fuel rhs st) fun rv st1 =>
        match op with
        | "!" => (st1, .ok (.VBool (!isTruthy (some rv))))
        | "-" =>
          match rv with
          | .VInt n => (st1, .ok (.VInt (wrap64 (-n))))
          | _ => (st1, .error ("operador '-' no soportado para tipo " ++ typeName rv))
        | _ => (st1, .error ("operador prefijo no soportado: " ++ op))
    | .call fnE args =>
      bindR (evalExpr fuel fnE st) fun fv st1 =>
        match fv with
        | .VClass c => instantiateClass fuel c args st1
        | _ =>
          bindL (evalExprList fuel args st1) fun avs st2 =>
            callFunction fuel fv avs st2
    | .member obj prop =>
      match obj with
      | .ident objName =>
        match envGet st (objName ++ "." ++ prop) with
        | some b => (st, .ok b)
        | none =>
          bindR (evalExpr fuel obj st) fun ov st1 => (st1, memberOnValue prop ov)
      | _ =>
        bindR (evalExpr fuel obj st) fun ov st1 => (st1, memberOnValue prop ov)
    | .indexE lhs idx =>
      bindR (evalExpr fuel lhs st) fun lv st1 =>
        bindR (evalExpr fuel idx st1) fun iv st2 =>
          (st2, indexValue st2 lv iv)
    | .thisE =>
      match envGet st "this" with
      | some v => (st, .ok v)
      | none => (st, .error "'this' is not available in this context")
termination_by structural fuel => fuel

/-- Left-to-right evaluation of an expression list (call arguments, list
literal elements), aborting on the first error. -/
def evalExprList : Nat → List Expr → EvalState → ResL
  | 0, _, st => (st, .error "evaluation fuel exhausted")
  | fuel + 1, es, st =>
    match es with
    | [] => (st, .ok [])
    | e :: rest =>
      match evalExpr fuel e st with
      | (st1, .error err) => (st1, .error err)
      | (st1, .ok v) =>
        match evalExprList fuel rest st1 with
        | (st2, .error err) => (st2, .error err)
        | (st2, .ok vs) => (st2, .ok (v :: vs))
termination_by structural fuel => fuel

/-- evaluateStatement of evaluator.go: dispatch over the statement kinds.
Var and Func statements yield Null; a Return statement evaluates its value
and yields it (no unwind signal exists); Try evaluates only its body block
and Throw yields Null (the catch clause, thrown value and finally block are
never consulted); Import resolves as evaluateImportStatement does. -/
def evalStmt : Nat → Stmt → EvalState → Res
  | 0, _, st => (st, .error "evaluation fuel exhausted")
  | fuel + 1, s, st =>
    match s with
    | .varDecl name value =>
      match value with
      | none => (setVarCur st name .VNull, .ok .VNull)
      | some e =>
        bindR (evalExpr fuel e st) fun v st1 => (setVarCur st1 name v, .ok .VNull)
    | .exprStmt oe =>
      match oe with
      | none => (st, .ok .VNull)
      | some e => evalExpr fuel e st
    | .funcDecl name params body =>
      (setVarCur st name (.VFunc ⟨name, params, body, st.envId⟩), .ok .VNull)
    | .returnStmt value =>
      match value with
      | none => (st, .ok .VNull)
      | some e => evalExpr fuel e st
    | .ifStmt cond conseq alt =>
      bindR (evalExpr fuel cond st) fun c st1 =>
        if isTruthy (some c) then evalBlock fuel conseq st1
        else
          match alt with
          | some a => evalBlock fuel a st1
          | none => (st1, .ok .VNull)
    | .whileStmt cond body =>
      bindR (evalExpr fuel cond st) fun c st1 =>
        if isTruthy (some c) then
          match runStmts fuel .VNull body.stmts st1 with
          | (st2, .error e) => (st2, .error e)
          | (st2, .ok v) =>
            if isBreak v then (st2, .ok .VNull)
            else evalStmt fuel (.whileStmt cond body) st2
        else (st1, .ok .VNull)
    | .forIn name iterable body =>
      bindR (evalExpr fuel iterable st) fun itv st1 =>
        match itv with
        | .VList addr =>
          match getList st1 addr with
          | some items => forInL fuel name items body st1
          | none => (st1, .error "dangling list reference")
        | .VString s => forInS fuel name s.data body st1
        | _ => (st1, .error ("cannot iterate over " ++ typeName itv))
    | .breakStmt => (st, .ok .VBreak)
    | .continueStmt => (st, .ok .VContinue)
    | .tryStmt tryBlock _ _ =>
      match tryBlock with
      | none => (st, .error "nil try block")
      | some b => evalBlock fuel b st
    | .throwStmt _ => (st, .ok .VNull)
    | .importStmt moduleName =>
      match envGet st moduleName with
      | some _ => (st, .ok .VNull)
      | none =>
        if moduleName = "zyloruntime" then
          (setVarCur st moduleName (.VString "zyloruntime_module"), .ok .VNull)
        else (st, .error ("Module '" ++ moduleName ++ "' not found"))
    | .blockStmt b => evalBlock fuel b st
    | .classDecl name attrs methods =>
      match evalClassAttrs fuel attrs [] st with
      | (st1, .error e) => (st1, .error e)
      | (st1, .ok attrVals) =>
        let folded := methods.foldl
          (fun (acc : List (String × FuncData) × Option FuncData) m =>
            let fd : FuncData := ⟨m.1, m.2.1, m.2.2, st1.envId⟩
            (alSet acc.1 m.1 fd, if m.1 = "init" then some fd else acc.2))
          ([], none)
        (setVarCur st1 name (.VClass (.mk name attrVals folded.1 folded.2)), .ok .VNull)
termination_by structural fuel => fuel

/-- The statement loop of evaluateBlockStatement (and, without a child
environment, of evaluateWhileStatement): statements run in order, the loop
returns a Break or Continue sentinel to the caller as soon as one appears
as a statement's result, and otherwise returns the last statement's value
(the accumulator starts at Null). -/
def runStmts : Nat → Value → List Stmt → EvalState → Res
  | 0, _, _, st => (st, .error "evaluation fuel exhausted")
  | fuel + 1, last, stmts, st =>
    match stmts with
    | [] => (st, .ok last)
    | s :: rest =>
      match evalStmt fuel s st with
      | (st1, .error e) => (st1, .error e)
      | (st1, .ok v) =>
        if isBC v then (st1, .ok v)
        else runStmts fuel v rest st1
termination_by structural fuel => fuel

/-- evaluateBlockStatement of evaluator.go: create a child environment of
the current one, run the statements in it, and restore the previous current
environment on every exit path (the Go defer), whether the loop ended
normally, on a sentinel, or on an error. -/
def evalBlock : Nat → Block → EvalState → Res
  | 0, _, st => (st, .error "evaluation fuel exhausted")
  | fuel + 1, b, st =>
    let (cid, st1) := allocEnvUnder st st.envId
    let r := runStmts fuel .VNull b.stmts { st1 with envId := cid }
    ({ r.1 with envId := st.envId }, r.2)
termination_by structural fuel => fuel

/-- The List arm of evaluateForInStatement: for each element, bind the loop
variable in the current environment, then evaluate the body as a block (a
fresh child environment per iteration); Break ends the loop yielding Null,
Continue moves to the next element. -/
def forInL : Nat → String → List Value → Block → EvalState → Res
  | 0, _, _, _, st => (st, .error "evaluation fuel exhausted")
  | fuel + 1, name, items, body, st =>
    match items with
    | [] => (st, .ok .VNull)
    | v :: rest =>
      match evalBlock fuel body (setVarCur st name v) with
      | (st1, .error e) => (st1, .error e)
      | (st1, .ok r) =>
        if isBreak r then (st1, .ok .VNull)
        else forInL fuel name rest body st1
termination_by structural fuel => fuel

/-- The String arm of evaluateForInStatement: iterate the characters, each
bound as a one-character String. -/
def forInS : Nat → String → List Char → Block → EvalState → Res
  | 0, _, _, _, st => (st, .error "evaluation fuel exhausted")
  | fuel + 1, name, chars, body, st =>
    match chars with
    | [] => (st, .ok .VNull)
    | c :: rest =>
      match evalBlock fuel body (setVarCur st name (.VString (String.mk [c]))) with
      | (st1, .error e) => (st1, .error e)
      | (st1, .ok r) =>
        if isBreak r then (st1, .ok .VNull)
        else forInS fuel name rest body st1
termination_by structural fuel => fuel

/-- callFunction of evaluator.go: dispatch on the callee's runtime kind.
The Go fallback matching an *ast.Identifier value is dead code (values are
never AST nodes) and collapses into the cannot-call error. -/
def callFunction : Nat → Value → List Value → EvalState → Res
  | 0, _, _, st => (st, .error "evaluation fuel exhausted")
  | fuel + 1, fv, args, st =>
    match fv with
    | .VFunc fd => callZylo fuel fd args st
    | .VBuiltin k => callBuiltin fuel k args st
    | .VBoundMethod c fields m => callBound fuel c fields m args st
    | _ => (st, .error ("no se puede llamar a: " ++ typeName fv))
termination_by structural fuel => fuel

/-- callZyloFunction of evaluator.go: a fresh child of the function's
captured (defining) environment, positional parameter binding, body
evaluated as a block with the current environment switched to the call
environment and restored afterwards (the Go defer restores it on the error
path too). -/
def callZylo : Nat → FuncData → List Value → EvalState → Res
  | 0, _, _, st => (st, .error "evaluation fuel exhausted")
  | fuel + 1, fd, args, st =>
    let (cid, st1) := allocEnvUnder st fd.envId
    let st2 := bindParams st1 cid fd.params args
    let r := evalBlock fuel fd.body { st2 with envId := cid }
    ({ r.1 with envId := st.envId }, r.2)
termination_by structural fuel => fuel

/-- callBoundMethod of evaluator.go: like callZylo, with "this" bound to the
receiving instance before the positional parameters. -/
def callBound : Nat → ClassData → List (String × Value) → FuncData → List Value → EvalState → Res
  | 0, _, _, _, _, st => (st, .error "evaluation fuel exhausted")
  | fuel + 1, c, fields, m, args, st =>
    let (cid, st1) := allocEnvUnder st m.envId
    let st2 := bindParams (setVarIn st1 cid "this" (.VInstance c fields)) cid m.params args
    let r := evalBlock fuel m.body { st2 with envId := cid }
    ({ r.1 with envId := st.envId }, r.2)
termination_by structural fuel => fuel

/-- instantiateClass of evaluator.go: the instance's field map is a shallow
copy of the class's default attribute values (so a List default is copied
as its address, sharing the cell between instances); if an init method
exists, the call arguments are evaluated, a child of the init method's
captured environment binds "this" and the parameters, and the init body
runs as a block; the instance is returned either way. Without an init
method the argument expressions are never evaluated, as in the Go code. -/
def instantiateClass : Nat → ClassData → List Expr → EvalState → Res
  | 0, _, _, st => (st, .error "evaluation fuel exhausted")
  | fuel + 1, c, argExprs, st =>
    let inst : Value := .VInstance c c.attrs
    match c.initM with
    | none => (st, .ok inst)
    | some im =>
      bindL (evalExprList fuel argExprs st) fun avs st1 =>
        let (cid, st2) := allocEnvUnder st1 im.envId
        let st3 := bindParams (setVarIn st2 cid "this" inst) cid im.params avs
        let r := evalBlock fuel im.body { st3 with envId := cid }
        match r.2 with
        | .error e => ({ r.1 with envId := st1.envId }, .error e)
        | .ok _ => ({ r.1 with envId := st1.envId }, .ok inst)
termination_by structural fuel => fuel

/-- The builtin bodies installed by InitBuiltins, plus the three List-method
builtins. The console builtins (show.log, read.line, read.int, getInput)
perform process I/O and to_number parses floats: their bodies are outside
the shallow embedding and yield an explicit error here; no claim invokes
them. show.log's console write is elided but, like the Go body, the call
shape is preserved. -/
def callBuiltin : Nat → BuiltinKind → List Value → EvalState → Res
  | 0, _, _, st => (st, .error "evaluation fuel exhausted")
  | fuel + 1, k, args, st =>
    match k with
    | .showLog => (st, .error "console output builtin not modelled")
    | .readLine => (st, .error "console input builtin not modelled")
    | .readInt => (st, .error "console input builtin not modelled")
    | .getInputB => (st, .error "console input builtin not modelled")
    | .toNumber => (st, .error "float parsing builtin not modelled")
    | .stringConv =>
      match args with
      | [a] =>
        match a with
        | .VInt n => (st, .ok (.VString (toString n)))
        | .VFloat q => (st, .ok (.VString (floatRepr q)))
        | .VString s => (st, .ok (.VString s))
        | .VBool b => (st, .ok (.VString (if b then "true" else "false")))
        | v => (st, .ok (.VString (goValueFmt v)))
      | _ =>
        (st, .error ("string() espera exactamente 1 argumento, recibió " ++ toString args.length))
    | .lenB =>
      match args with
      | [a] =>
        match a with
        | .VList addr =>
          match getList st addr with
          | some items => (st, .ok (.VInt items.length))
          | none => (st, .error "dangling list reference")
        | .VString s => (st, .ok (.VInt s.length))
        | v => (st, .error ("len() not supported for " ++ typeName v))
      | _ => (st, .error "len() expects exactly 1 argument")
    | .splitB =>
      match args with
      | [.VString s, .VString sep] =>
        let (addr, st1) := allocList st ((s.splitOn sep).map .VString)
        (st1, .ok (.VList addr))
      | [_, _] => (st, .error "arguments to split() must be strings")
      | _ => (st, .error "split() expects exactly 2 arguments")
    | .zrSplit =>
      match args with
      | [.VString s, .VString sep] =>
        let (addr, st1) := allocList st ((s.splitOn sep).map .VString)
        (st1, .ok (.VList addr))
      | [_, _] => (st, .error "arguments to zyloruntime.Split() must be strings")
      | _ => (st, .error "zyloruntime.Split() expects exactly 2 arguments")
    | .tryB =>
      match args with
      | [.VFunc fb, .VFunc cb] =>
        match callZylo fuel fb [] st with
        | (st1, .ok r) => (st1, .ok r)
        | (st1, .error err) =>
          match callZylo fuel cb [.VString err] st1 with
          | (st2, .error err2) => (st2, .error err2)
          | (st2, .ok _) => (st2, .ok .VNull)
      | [_, _] => (st, .error "arguments to try() must be functions")
      | _ => (st, .error "try() expects exactly 2 arguments")
    | .addB =>
      match args with
      | [a, b] => (st, applyOperator "+" a b)
      | _ => (st, .error "add() expects exactly 2 arguments")
    | .subB =>
      match args with
      | [a, b] => (st, applyOperator "-" a b)
      | _ => (st, .error "subtract() expects exactly 2 arguments")
    | .mulB =>
      match args with
      | [a, b] => (st, applyOperator "*" a b)
      | _ => (st, .error "multiply() expects exactly 2 arguments")
    | .divB =>
      match args with
      | [a, b] => (st, applyOperator "/" a b)
      | _ => (st, .error "divide() expects exactly 2 arguments")
    | .listGet addr =>
      match args with
      | [.VInt n] =>
        match getList st addr with
        | none => (st, .error "dangling list reference")
        | some items =>
          if h : 0 ≤ n ∧ n.toNat < items.length then
            (st, .ok (items.get ⟨n.toNat, h.2⟩))
          else (st, .error "index out of bounds")
      | [_] => (st, .error "List.Get() index must be integer")
      | _ => (st, .error "List.Get() expects exactly 1 argument")
    | .listAppend addr =>
      match args with
      | [a] =>
        match getList st addr with
        | none => (st, .error "dangling list reference")
        | some items => (setList st addr (items ++ [a]), .ok .VNull)
      | _ => (st, .error "List.Append() expects exactly 1 argument")
    | .listLen addr =>
      match getList st addr with
      | none => (st, .error "dangling list reference")
      | some items => (st, .ok (.VInt items.length))
termination_by structural fuel => fuel

/-- The attribute loop of evaluateClassStatement: each initializer is
evaluated once, in order, a missing initializer yields Null, and the
results build the class's default attribute map. -/
def evalClassAttrs : Nat → List (String × Option Expr) → List (String × Value) → EvalState → ResA
  | 0, _, _, st => (st, .error "evaluation fuel exhausted")
  | fuel + 1, attrs, acc, st =>
    match attrs with
    | [] => (st, .ok acc)
    | (name, oe) :: rest =>
      match oe with
      | none => evalClassAttrs fuel rest (alSet acc name .VNull) st
      | some e =>
        match evalExpr fuel e st with
        | (st1, .error err) => (st1, .error err)
        | (st1, .ok v) => evalClassAttrs fuel rest (alSet acc name v) st1
termination_by structural fuel => fuel

end

/-- The bindings installed by InitBuiltins of evaluator.go, in installation
order: the console and runtime helpers, the zyloruntime namespace object (a
String), the null binding, and the four arithmetic helpers. -/
def builtinBindings : List (String × Value) :=
  [("show.log", .VBuiltin .showLog),
   ("read.line", .VBuiltin .readLine),
   ("read.int", .VBuiltin .readInt),
   ("string", .VBuiltin .stringConv),
   ("len", .VBuiltin .lenB),
   ("split", .VBuiltin .splitB),
   ("to_number", .VBuiltin .toNumber),
   ("zyloruntime.Split", .VBuiltin .zrSplit),
   ("try", .VBuiltin .tryB),
   ("zyloruntime", .VString "zyloruntime_namespace"),
   ("getInput", .VBuiltin .getInputB),
   ("null", .VNull),
   ("add", .VBuiltin .addB),
   ("subtract", .VBuiltin .subB),
   ("multiply", .VBuiltin .mulB),
   ("divide", .VBuiltin .divB)]

/-- The state NewEvaluator starts from: a single root environment (id 0, no
parent) holding the builtin bindings. -/
def initialState : EvalState :=
  { envId := 0
    envs := [(0, ⟨builtinBindings, none⟩)]
    listH := []
    nextEnv := 1
    nextList := 0 }

/-- The top-level statement loop of EvaluateProgram: statements run in order
in the current (root) scope, aborting on the first error; statement values,
sentinels included, are discarded. -/
def runProgram (fuel : Nat) : List Stmt → EvalState → EvalState × Except String Unit
  | [], st => (st, .ok ())
  | s :: rest, st =>
    match evalStmt fuel s st with
    | (st1, .error e) => (st1, .error e)
    | (st1, .ok _) => runProgram fuel rest st1

/-- EvaluateProgram of evaluator.go: run the top-level statements, then, if a
binding named main now holds a ZyloFunction, call it with no arguments. -/
def evalProgram (fuel : Nat) (prog : List Stmt) (st : EvalState) : EvalState × Except String Unit :=
  match runProgram fuel prog st with
  | (st1, .error e) => (st1, .error e)
  | (st1, .ok ()) =>
    match envGet st1 "main" with
    | some (.VFunc fd) =>
      match callZylo fuel fd [] st1 with
      | (st2, .error e) => (st2, .error e)
      | (st2, .ok _) => (st2, .ok ())
    | _ => (st1, .ok ())

/-- Field of an instance value, for stating properties about instances. -/
def fieldOf (v : Value) (name : String) : Option Value :=
  match v with
  | .VInstance _ fields => alGet fields name
  | _ => none

/-- Looking up the key just written finds the new value. -/
theorem alGet_alSet_self {κ α : Type} [DecidableEq κ] (l : List (κ × α)) (k : κ) (v : α) :
    alGet (alSet l k v) k = some v := by
  induction l with
  | nil => simp [alGet, alSet]
  | cons p rest ih =>
    by_cases h : p.1 = k
    · simp [alSet, alGet, h]
    · simpa [alSet, alGet, h] using ih

/-- Writing one key leaves the lookup of any other key unchanged. -/
theorem alGet_alSet_ne {κ α : Type} [DecidableEq κ] (l : List (κ × α)) {k j : κ} (v : α)
    (h : j ≠ k) : alGet (alSet l k v) j = alGet l j := by
  have hkj : k ≠ j := Ne.symm h
  induction l with
  | nil => simp [alGet, alSet, hkj]
  | cons p rest ih =>
    by_cases hp : p.1 = k
    · simp [alSet, alGet, hp, hkj]
    · by_cases hj : p.1 = j <;> simp [alSet, alGet, hp, hj, h, ih]

/-- Lookup after an in-place update: the updated key sees the function
applied, every other key is untouched. -/
theorem alGet_alUpd {κ α : Type} [DecidableEq κ] (l : List (κ × α)) (k : κ) (g : α → α) (j : κ) :
    alGet (alUpd l k g) j = if j = k then (alGet l j).map g else alGet l j := by
  induction l with
  | nil => by_cases h : j = k <;> simp [alGet, alUpd, h]
  | cons p rest ih =>
    by_cases hp : p.1 = k
    · by_cases hj : p.1 = j <;> by_cases hjk : j = k <;>
        simp_all [alUpd, alGet]
    · by_cases hj : p.1 = j
      · have : ¬ j = k := fun h => hp (hj ▸ h)
        simp [alUpd, alGet, hp, hj, this]
      · simp [alUpd, alGet, hp, hj, ih]

/-- An update never introduces a new key. -/
theorem alUpd_mem {κ α : Type} [DecidableEq κ] {l : List (κ × α)} {k : κ} {g : α → α} {p : κ × α}
    (h : p ∈ alUpd l k g) : ∃ q ∈ l, p.1 = q.1 := by
  induction l with
  | nil => simp [alUpd] at h
  | cons q rest ih =>
    rw [alUpd] at h
    by_cases hq : q.1 = k
    · rw [if_pos hq] at h
      rcases List.mem_cons.mp h with he | he
      · exact ⟨q, List.mem_cons_self _ _, by simp [he]⟩
      · exact ⟨p, List.mem_cons_of_mem _ he, rfl⟩
    · rw [if_neg hq] at h
      rcases List.mem_cons.mp h with he | he
      · exact ⟨q, List.mem_cons_self _ _, by simp [he]⟩
      · rcases ih he with ⟨r, hr, hee⟩
        exact ⟨r, List.mem_cons_of_mem _ hr, hee⟩

/-- A successful lookup exhibits a member of the list. -/
theorem alGet_mem {κ α : Type} [DecidableEq κ] {l : List (κ × α)} {k : κ} {v : α}
    (h : alGet l k = some v) : (k, v) ∈ l := by
  induction l with
  | nil => simp [alGet] at h
  | cons p rest ih =>
    rw [alGet] at h
    by_cases hp : p.1 = k
    · rw [if_pos hp, Option.some.injEq] at h
      cases p with
      | mk pk pv =>
        simp only at hp h
        subst hp
        subst h
        exact List.mem_cons_self _ _
    · rw [if_neg hp] at h
      exact List.mem_cons_of_mem _ (ih h)

/-- Well-formed state: every environment frame in the heap has an id below
the fresh-id counter, so a fresh allocation never collides. All states
the interpreter builds from initialState are well-formed. -/
def WFS (s : EvalState) : Prop :=
  ∀ p ∈ s.envs, p.1 < s.nextEnv

/-- Frame preservation between two states: the fresh-id counter never goes
backwards, and every frame of the first heap is still present in the
second with the same id and the same parent pointer (only its variable
map may have changed). -/
def Pres (s t : EvalState) : Prop :=
  s.nextEnv ≤ t.nextEnv ∧
  ∀ id fr, findEnv s id = some fr → ∃ vs, findEnv t id = some ⟨vs, fr.parent⟩

/-- Preservation together with well-formedness of the target state. -/
def PW (s t : EvalState) : Prop := Pres s t ∧ WFS t

theorem pres_refl (s : EvalState) : Pres s s :=
  ⟨le_refl _, fun _ fr h => ⟨fr.vars, h⟩⟩

theorem pw_refl {s : EvalState} (h : WFS s) : PW s s :=
  ⟨pres_refl s, h⟩

theorem pres_trans {s t u : EvalState} (h1 : Pres s t) (h2 : Pres t u) : Pres s u := by
  refine ⟨le_trans h1.1 h2.1, fun id fr h => ?_⟩
  rcases h1.2 id fr h with ⟨vs, hv⟩
  rcases h2.2 id ⟨vs, fr.parent⟩ hv with ⟨ws, hw⟩
  exact ⟨ws, hw⟩

theorem pw_step {s t u : EvalState} (h1 : PW s t) (h2 : WFS t → PW t u) : PW s u :=
  ⟨pres_trans h1.1 (h2 h1.2).1, (h2 h1.2).2⟩

/-- Two states with the same heap and counter are mutually preserved; covers
the pure envId switch of the Go defer discipline. -/
theorem pw_same_heap {s t : EvalState} (he : s.envs = t.envs) (hn : s.nextEnv = t.nextEnv)
    (h : WFS s) : PW s t := by
  refine ⟨⟨le_of_eq hn, fun id fr hf => ⟨fr.vars, ?_⟩⟩, ?_⟩
  · simpa [findEnv, ← he] using hf
  · intro p hp
    rw [← hn]
    exact h p (he ▸ hp)

theorem pw_setVarIn {s : EvalState} (h : WFS s) (id : Nat) (n : String) (v : Value) :
    PW s (setVarIn s id n v) := by
  refine ⟨⟨le_refl _, fun j fr hf => ?_⟩, fun p hp => ?_⟩
  · by_cases hj : j = id
    · refine ⟨alSet fr.vars n v, ?_⟩
      simp [setVarIn, findEnv, alGet_alUpd, hj] at hf ⊢
      simp [hf]
    · refine ⟨fr.vars, ?_⟩
      simpa [setVarIn, findEnv, alGet_alUpd, hj] using hf
  · rcases alUpd_mem hp with ⟨q, hq, he⟩
    simpa [setVarIn, he] using h q hq

theorem pw_allocEnvUnder {s : EvalState} (h : WFS s) (pid : Nat) :
    PW s (allocEnvUnder s pid).2 := by
  refine ⟨⟨Nat.le_succ _, fun j fr hf => ⟨fr.vars, ?_⟩⟩, fun p hp => ?_⟩
  · have hj : j ≠ s.nextEnv := Nat.ne_of_lt (h _ (alGet_mem hf))
    simpa [allocEnvUnder, findEnv, alGet, Ne.symm hj] using hf
  · simp only [allocEnvUnder, List.mem_cons] at hp
    rcases hp with hp | hp
    · simp [hp, allocEnvUnder]
    · exact Nat.lt_succ_of_lt (h p hp)

/-- Freshly allocated frame: empty variable map, parent as requested. -/
theorem findEnv_allocEnvUnder (s : EvalState) (pid : Nat) :
    findEnv (allocEnvUnder s pid).2 s.nextEnv = some ⟨[], some pid⟩ := by
  simp [allocEnvUnder, findEnv, alGet]

theorem pw_allocList {s : EvalState} (h : WFS s) (items : List Value) :
    PW s (allocList s items).2 := by
  refine ⟨⟨le_refl _, fun j fr hf => ⟨fr.vars, ?_⟩⟩, fun p hp => ?_⟩
  · simpa [allocList, findEnv] using hf
  · exact h p (by simpa [allocList] using hp)

theorem pw_setList {s : EvalState} (h : WFS s) (a : Nat) (items : List Value) :
    PW s (setList s a items) := by
  refine ⟨⟨le_refl _, fun j fr hf => ⟨fr.vars, ?_⟩⟩, fun p hp => ?_⟩
  · simpa [setList, findEnv] using hf
  · exact h p (by simpa [setList] using hp)

theorem pw_bindParams {s : EvalState} (h : WFS s) (id : Nat) (ps : List String) (as : List Value) :
    PW s (bindParams s id ps as) := by
  induction ps generalizing s as with
  | nil => cases as <;> exact pw_refl h
  | cons p rest ih =>
    cases as with
    | nil => exact pw_refl h
    | cons a arest =>
      exact pw_step (pw_setVarIn h id p a) fun h1 => ih h1 arest

theorem pw_bindR {st : EvalState} {r : Res} {k : Value → EvalState → Res}
    (hr : PW st r.1) (hk : ∀ v s, r = (s, .ok v) → WFS s → PW s (k v s).1) :
    PW st (bindR r k).1 := by
  rcases r with ⟨s, out⟩
  cases out with
  | error e => exact hr
  | ok v => exact pw_step hr (hk v s rfl)

theorem pw_bindL {st : EvalState} {r : ResL} {k : List Value → EvalState → Res}
    (hr : PW st r.1) (hk : ∀ vs s, r = (s, .ok vs) → WFS s → PW s (k vs s).1) :
    PW st (bindL r k).1 := by
  rcases r with ⟨s, out⟩
  cases out with
  | error e => exact hr
  | ok v => exact pw_step hr (hk v s rfl)

/-- Frame preservation and well-formedness, for every interpreter entry
point at a given fuel: from a well-formed state, evaluation (whatever its
outcome) yields a well-formed state that keeps every existing environment
frame, with its id and parent pointer intact. -/
def PresAt (f : Nat) : Prop :=
  (∀ e st, WFS st → PW st (evalExpr f e st).1)
  ∧ (∀ es st, WFS st → PW st (evalExprList f es st).1)
  ∧ (∀ s st, WFS st → PW st (evalStmt f s st).1)
  ∧ (∀ last ss st, WFS st → PW st (runStmts f last ss st).1)
  ∧ (∀ b st, WFS st → PW st (evalBlock f b st).1)
  ∧ (∀ n items b st, WFS st → PW st (forInL f n items b st).1)
  ∧ (∀ n cs b st, WFS st → PW st (forInS f n cs b st).1)
  ∧ (∀ fv args st, WFS st → PW st (callFunction f fv args st).1)
  ∧ (∀ fd args st, WFS st → PW st (callZylo f fd args st).1)
  ∧ (∀ c fl m args st, WFS st → PW st (callBound f c fl m args st).1)
  ∧ (∀ k args st, WFS st → PW st (callBuiltin f k args st).1)
  ∧ (∀ c aes st, WFS st → PW st (instantiateClass f c aes st).1)
  ∧ (∀ attrs acc st, WFS st → PW st (evalClassAttrs f attrs acc st).1)

/-- The common tail of a call: switch into the call environment, evaluate the
body block, and restore an environment pointer; preservation holds whenever
it holds up to the prepared call state. -/
theorem pw_call_tail {f : Nat} (hB : ∀ b st, WFS st → PW st (evalBlock f b st).1)
    {st s2 : EvalState} (h : PW st s2) (b : Block) (cid back : Nat) :
    PW st { (evalBlock f b { s2 with envId := cid }).1 with envId := back } := by
  have h2 : PW st { s2 with envId := cid } := pw_step h fun hW => pw_same_heap rfl rfl hW
  have h3 : PW st (evalBlock f b { s2 with envId := cid }).1 :=
    pw_step h2 fun hW => hB b _ hW
  exact pw_step h3 fun hW => pw_same_heap rfl rfl hW

theorem presAll : ∀ f, PresAt f := by
  intro f
  induction f with
  | zero =>
    exact ⟨fun _ st h => pw_refl h, fun _ st h => pw_refl h, fun _ st h => pw_refl h,
      fun _ _ st h => pw_refl h, fun _ st h => pw_refl h, fun _ _ _ st h => pw_refl h,
      fun _ _ _ st h => pw_refl h, fun _ _ st h => pw_refl h, fun _ _ st h => pw_refl h,
      fun _ _ _ _ st h => pw_refl h, fun _ _ st h => pw_refl h, fun _ _ st h => pw_refl h,
      fun _ _ st h => pw_refl h⟩
  | succ f ih =>
    obtain ⟨ihE, ihEL, ihS, ihR, ihB, ihFL, ihFS, ihCF, ihCZ, ihCBd, ihBI, ihIC, ihCA⟩ := ih
    refine ⟨?_, ?_, ?_, ?_, ?_, ?_, ?_, ?_, ?_, ?_, ?_, ?_, ?_⟩
    · -- evalExpr
      intro e st hst
      cases e with
      | ident name =>
        simp only [evalExpr]
        cases envGet st name <;> exact pw_refl hst
      | strLit s => exact pw_refl hst
      | intLit n => exact pw_refl hst
      | floatLit q => exact pw_refl hst
      | boolLit b => exact pw_refl hst
      | nullLit => exact pw_refl hst
      | listLit elems =>
        simp only [evalExpr]
        refine pw_bindL (ihEL elems st hst) fun vs s hr hW => ?_
        exact pw_allocList hW vs
      | binop op lhs rhs =>
        simp only [evalExpr]
        split
        · split
          · refine pw_bindR (ihE rhs st hst) fun v s hr hW => ?_
            cases envGet s _ with
            | none => exact pw_refl hW
            | some _ => exact pw_setVarIn hW _ _ _
          · exact pw_refl hst
        · refine pw_bindR (ihE lhs st hst) fun lv s hr hW => ?_
          refine pw_bindR (ihE rhs s hW) fun rv s2 hr2 hW2 => ?_
          exact pw_refl hW2
      | unop op rhs =>
        simp only [evalExpr]
        refine pw_bindR (ihE rhs st hst) fun rv s hr hW => ?_
        split
        · exact pw_refl hW
        · split
          · exact pw_refl hW
          · exact pw_refl hW
        · exact pw_refl hW
      | call fnE args =>
        simp only [evalExpr]
        refine pw_bindR (ihE fnE st hst) fun fv s hr hW => ?_
        split
        · exact ihIC _ args s hW
        · refine pw_bindL (ihEL args s hW) fun avs s2 hr2 hW2 => ?_
          exact ihCF fv avs s2 hW2
      | member obj prop =>
        simp only [evalExpr]
        split
        · split
          · exact pw_refl hst
          · exact pw_bindR (ihE _ st hst) fun ov s1 hr hW => pw_refl hW
        · exact pw_bindR (ihE _ st hst) fun ov s1 hr hW => pw_refl hW
      | indexE lhs idx =>
        simp only [evalExpr]
        refine pw_bindR (ihE lhs st hst) fun lv s hr hW => ?_
        refine pw_bindR (ihE idx s hW) fun iv s2 hr2 hW2 => pw_refl hW2
      | thisE =>
        simp only [evalExpr]
        cases envGet st "this" <;> exact pw_refl hst
    · -- evalExprList
      intro es st hst
      cases es with
      | nil => exact pw_refl hst
      | cons e rest =>
        simp only [evalExprList]
        rcases h1 : evalExpr f e st with ⟨s1, out1⟩
        have p1 : PW st s1 := by simpa [h1] using ihE e st hst
        cases out1 with
        | error err => simp only [h1]; exact p1
        | ok v =>
          simp only [h1]
          rcases h2 : evalExprList f rest s1 with ⟨s2, out2⟩
          have p2 : PW st s2 := pw_step p1 fun hW => by simpa [h2] using ihEL rest s1 hW
          cases out2 with
          | error err => exact p2
          | ok vs => exact p2
    · -- evalStmt
      intro s st hst
      cases s with
      | varDecl name value =>
        cases value with
        | none => exact pw_setVarIn hst _ _ _
        | some e =>
          simp only [evalStmt]
          refine pw_bindR (ihE e st hst) fun v s1 hr hW => ?_
          exact pw_setVarIn hW _ _ _
      | exprStmt oe =>
        cases oe with
        | none => exact pw_refl hst
        | some e => exact ihE e st hst
      | funcDecl name params body => exact pw_setVarIn hst _ _ _
      | returnStmt value =>
        cases value with
        | none => exact pw_refl hst
        | some e => exact ihE e st hst
      | ifStmt cond conseq alt =>
        simp only [evalStmt]
        refine pw_bindR (ihE cond st hst) fun c s1 hr hW => ?_
        split
        · exact ihB conseq s1 hW
        · cases alt with
          | none => exact pw_refl hW
          | some a => exact ihB a s1 hW
      | whileStmt cond body =>
        simp only [evalStmt]
        refine pw_bindR (ihE cond st hst) fun c s1 hr hW => ?_
        split
        · rcases h2 : runStmts f .VNull body.stmts s1 with ⟨s2, out2⟩
          have p2 : PW s1 s2 := by simpa [h2] using ihR .VNull body.stmts s1 hW
          cases out2 with
          | error err => simp only [h2]; exact p2
          | ok v =>
            simp only [h2]
            split
            · exact p2
            · exact pw_step p2 fun hW2 => ihS (.whileStmt cond body) s2 hW2
        · exact pw_refl hW
      | forIn name iterable body =>
        simp only [evalStmt]
        refine pw_bindR (ihE iterable st hst) fun itv s1 hr hW => ?_
        split
        · split
          · exact ihFL name _ body s1 hW
          · exact pw_refl hW
        · exact ihFS name _ body s1 hW
        · exact pw_refl hW
      | breakStmt => exact pw_refl hst
      | continueStmt => exact pw_refl hst
      | tryStmt tb cc fb =>
        cases tb with
        | none => exact pw_refl hst
        | some b => exact ihB b st hst
      | throwStmt e => exact pw_refl hst
      | importStmt name =>
        simp only [evalStmt]
        rcases hv : envGet st name with _ | v
        · simp only [hv]
          split
          · exact pw_setVarIn hst _ _ _
          · exact pw_refl hst
        · simp only [hv]
          exact pw_refl hst
      | blockStmt b => exact ihB b st hst
      | classDecl name attrs methods =>
        simp only [evalStmt]
        rcases h1 : evalClassAttrs f attrs [] st with ⟨s1, out1⟩
        have p1 : PW st s1 := by simpa [h1] using ihCA attrs [] st hst
        cases out1 with
        | error err => simp only [h1]; exact p1
        | ok attrVals =>
          simp only [h1]
          exact pw_step p1 fun hW => pw_setVarIn hW _ _ _
    · -- runStmts
      intro last ss st hst
      cases ss with
      | nil => exact pw_refl hst
      | cons s rest =>
        simp only [runStmts]
        rcases h1 : evalStmt f s st with ⟨s1, out1⟩
        have p1 : PW st s1 := by simpa [h1] using ihS s st hst
        cases out1 with
        | error err => simp only [h1]; exact p1
        | ok v =>
          simp only [h1]
          split
          · exact p1
          · exact pw_step p1 fun hW => ihR v rest s1 hW
    · -- evalBlock
      intro b st hst
      simp only [evalBlock]
      have h1 : PW st (allocEnvUnder st st.envId).2 := pw_allocEnvUnder hst _
      have h2 : PW st { (allocEnvUnder st st.envId).2 with envId := (allocEnvUnder st st.envId).1 } :=
        pw_step h1 fun hW => pw_same_heap rfl rfl hW
      have h3 : PW st (runStmts f .VNull b.stmts { (allocEnvUnder st st.envId).2 with envId := (allocEnvUnder st st.envId).1 }).1 :=
        pw_step h2 fun hW => ihR .VNull b.stmts _ hW
      exact pw_step h3 fun hW => pw_same_heap rfl rfl hW
    · -- forInL
      intro n items b st hst
      cases items with
      | nil => exact pw_refl hst
      | cons v rest =>
        simp only [forInL]
        rcases h1 : evalBlock f b (setVarCur st n v) with ⟨s1, out1⟩
        have p0 : PW st (setVarCur st n v) := pw_setVarIn hst _ _ _
        have p1 : PW st s1 := pw_step p0 fun hW => by simpa [h1] using ihB b (setVarCur st n v) hW
        cases out1 with
        | error err => simp only [h1]; exact p1
        | ok r =>
          simp only [h1]
          split
          · exact p1
          · exact pw_step p1 fun hW => ihFL n rest b s1 hW
    · -- forInS
      intro n cs b st hst
      cases cs with
      | nil => exact pw_refl hst
      | cons c rest =>
        simp only [forInS]
        rcases h1 : evalBlock f b (setVarCur st n (.VString (String.mk [c]))) with ⟨s1, out1⟩
        have p0 : PW st (setVarCur st n (.VString (String.mk [c]))) := pw_setVarIn hst _ _ _
        have p1 : PW st s1 := pw_step p0 fun hW => by simpa [h1] using ihB b _ hW
        cases out1 with
        | error err => simp only [h1]; exact p1
        | ok r =>
          simp only [h1]
          split
          · exact p1
          · exact pw_step p1 fun hW => ihFS n rest b s1 hW
    · -- callFunction
      intro fv args st hst
      simp only [callFunction]
      split
      · exact ihCZ _ args st hst
      · exact ihBI _ args st hst
      · exact ihCBd _ _ _ args st hst
      · exact pw_refl hst
    · -- callZylo
      intro fd args st hst
      have h1 : PW st (allocEnvUnder st fd.envId).2 := pw_allocEnvUnder hst _
      have h2 : PW st (bindParams (allocEnvUnder st fd.envId).2 (allocEnvUnder st fd.envId).1 fd.params args) :=
        pw_step h1 fun hW => pw_bindParams hW _ _ _
      exact pw_call_tail ihB h2 fd.body (allocEnvUnder st fd.envId).1 st.envId
    · -- callBound
      intro c fl m args st hst
      have h1 : PW st (allocEnvUnder st m.envId).2 := pw_allocEnvUnder hst _
      have h2 : PW st (bindParams (setVarIn (allocEnvUnder st m.envId).2 (allocEnvUnder st m.envId).1 "this" (.VInstance c fl)) (allocEnvUnder st m.envId).1 m.params args) :=
        pw_step (pw_step h1 fun hW => pw_setVarIn hW _ _ _) fun hW => pw_bindParams hW _ _ _
      exact pw_call_tail ihB h2 m.body (allocEnvUnder st m.envId).1 st.envId
    · -- callBuiltin
      intro k args st hst
      cases k with
      | showLog => exact pw_refl hst
      | readLine => exact pw_refl hst
      | readInt => exact pw_refl hst
      | getInputB => exact pw_refl hst
      | toNumber => exact pw_refl hst
      | stringConv =>
        simp only [callBuiltin]
        split
        · split <;> exact pw_refl hst
        · exact pw_refl hst
      | lenB =>
        simp only [callBuiltin]
        split
        · split
          · split <;> exact pw_refl hst
          · exact pw_refl hst
          · exact pw_refl hst
        · exact pw_refl hst
      | splitB =>
        simp only [callBuiltin]
        split
        · exact pw_allocList hst _
        · exact pw_refl hst
        · exact pw_refl hst
      | zrSplit =>
        simp only [callBuiltin]
        split
        · exact pw_allocList hst _
        · exact pw_refl hst
        · exact pw_refl hst
      | tryB =>
        simp only [callBuiltin]
        split
        · rename_i fb cb
          rcases h1 : callZylo f fb [] st with ⟨s1, out1⟩
          have p1 : PW st s1 := by simpa [h1] using ihCZ fb [] st hst
          cases out1 with
          | ok r => simp only [h1]; exact p1
          | error err =>
            simp only [h1]
            rcases h2 : callZylo f cb [.VString err] s1 with ⟨s2, out2⟩
            have p2 : PW st s2 := pw_step p1 fun hW => by simpa [h2] using ihCZ cb [.VString err] s1 hW
            cases out2 with
            | error err2 => exact p2
            | ok r2 => exact p2
        · exact pw_refl hst
        · exact pw_refl hst
      | addB =>
        simp only [callBuiltin]
        split <;> exact pw_refl hst
      | subB =>
        simp only [callBuiltin]
        split <;> exact pw_refl hst
      | mulB =>
        simp only [callBuiltin]
        split <;> exact pw_refl hst
      | divB =>
        simp only [callBuiltin]
        split <;> exact pw_refl hst
      | listGet addr =>
        simp only [callBuiltin]
        split
        · split
          · exact pw_refl hst
          · split <;> exact pw_refl hst
        · exact pw_refl hst
        · exact pw_refl hst
      | listAppend addr =>
        simp only [callBuiltin]
        split
        · split
          · exact pw_refl hst
          · exact pw_setList hst _ _
        · exact pw_refl hst
      | listLen addr =>
        simp only [callBuiltin]
        split <;> exact pw_refl hst
    · -- instantiateClass
      intro c aes st hst
      simp only [instantiateClass]
      cases hI : c.initM with
      | none => exact pw_refl hst
      | some im =>
        refine pw_bindL (ihEL aes st hst) fun avs s1 hr hW => ?_
        have h1 : PW s1 (allocEnvUnder s1 im.envId).2 := pw_allocEnvUnder hW _
        have h2 : PW s1 (bindParams (setVarIn (allocEnvUnder s1 im.envId).2 (allocEnvUnder s1 im.envId).1 "this" (.VInstance c c.attrs)) (allocEnvUnder s1 im.envId).1 im.params avs) :=
          pw_step (pw_step h1 fun hW1 => pw_setVarIn hW1 _ _ _) fun hW2 => pw_bindParams hW2 _ _ _
        have h3 := pw_call_tail ihB h2 im.body (allocEnvUnder s1 im.envId).1 s1.envId
        rcases hres : evalBlock f im.body { bindParams (setVarIn (allocEnvUnder s1 im.envId).2 (allocEnvUnder s1 im.envId).1 "this" (.VInstance c c.attrs)) (allocEnvUnder s1 im.envId).1 im.params avs with envId := (allocEnvUnder s1 im.envId).1 } with ⟨s2, out⟩
        have h4 : PW s1 { s2 with envId := s1.envId } := by
          rw [hres] at h3
          exact h3
        cases out with
        | error e => simp only [hres]; exact h4
        | ok v => simp only [hres]; exact h4
    · -- evalClassAttrs
      intro attrs acc st hst
      cases attrs with
      | nil => exact pw_refl hst
      | cons a rest =>
        simp only [evalClassAttrs]
        rcases a with ⟨name, oe⟩
        cases oe with
        | none => exact ihCA rest _ st hst
        | some e =>
          rcases h1 : evalExpr f e st with ⟨s1, out1⟩
          have p1 : PW st s1 := by simpa [h1] using ihE e st hst
          cases out1 with
          | error err => simp only [h1]; exact p1
          | ok v =>
            simp only [h1]
            exact pw_step p1 fun hW => ihCA rest _ s1 hW

/-- After e.env.Set, e.env.Get finds the value just written, provided the
current frame exists in the heap (it always does in interpreter-built
states). -/
theorem envGet_setVarCur_self (st : EvalState) (n : String) (v : Value)
    (h : ∃ fr, findEnv st st.envId = some fr) :
    envGet (setVarCur st n v) n = some v := by
  obtain ⟨fr, hfr⟩ := h
  have hfind : findEnv (setVarCur st n v) st.envId
      = some { fr with vars := alSet fr.vars n v } := by
    simp [setVarCur, setVarIn, findEnv, alGet_alUpd, hfr]
    simp [findEnv] at hfr
    simp [hfr]
  have henvId : (setVarCur st n v).envId = st.envId := rfl
  rw [envGet, henvId, envGetAux]
  rw [hfind]
  simp [alGet_alSet_self]

/-- C9: evaluating a Block statement always creates a child environment for
the block's statements — a fresh frame, allocated at the entry state's
fresh id, whose parent pointer is the environment current at entry, and
which is still present with that parent in the final heap whatever the
outcome — and always restores the evaluator's current environment to the
parent on every exit path: whether the block's statement loop completed
normally, stopped on a Break/Continue sentinel, or aborted with an
evaluation error, the result state's current-environment pointer equals
the entry state's, so no scope leakage across errors occurs. -/
theorem c9_block_creates_and_restores_env (fuel : Nat) (b : Block) (st : EvalState) :
    ((evalBlock (fuel + 1) b st).1.envId = st.envId)
    ∧ (WFS st → ∃ vs,
        findEnv (evalBlock (fuel + 1) b st).1 st.nextEnv = some ⟨vs, some st.envId⟩) := by
  constructor
  · simp [evalBlock]
  · intro hW
    have hPW : PW st { (allocEnvUnder st st.envId).2 with envId := (allocEnvUnder st st.envId).1 } :=
      pw_step (pw_allocEnvUnder hW st.envId) fun h2 => pw_same_heap rfl rfl h2
    have hfr : findEnv { (allocEnvUnder st st.envId).2 with envId := (allocEnvUnder st st.envId).1 } st.nextEnv
        = some ⟨[], some st.envId⟩ := findEnv_allocEnvUnder st st.envId
    have hrun := ((presAll fuel).2.2.2.1 .VNull b.stmts
      { (allocEnvUnder st st.envId).2 with envId := (allocEnvUnder st st.envId).1 } hPW.2)
    obtain ⟨vs, hv⟩ := hrun.1.2 st.nextEnv ⟨[], some st.envId⟩ hfr
    refine ⟨vs, ?_⟩
    simp only [evalBlock]
    simpa [findEnv] using hv

/-- Witness for c9_block_creates_and_restores_env at the initial state and an
empty block. -/
theorem c9_block_creates_and_restores_env_witness :
    ((evalBlock 1 (.mk []) initialState).1.envId = initialState.envId)
    ∧ (∃ vs, findEnv (evalBlock 1 (.mk []) initialState).1 initialState.nextEnv
        = some ⟨vs, some initialState.envId⟩) :=
  ⟨(c9_block_creates_and_restores_env 0 (.mk []) initialState).1,
   (c9_block_creates_and_restores_env 0 (.mk []) initialState).2 (by
     intro p hp
     simp [initialState] at hp
     simp [hp, initialState])⟩

/-- A state with one empty root frame: the builtin module name is not yet
bound there, exercising the resolving branch of import. -/
def bareState : EvalState :=
  { envId := 0
    envs := [(0, ⟨[], none⟩)]
    listH := []
    nextEnv := 1
    nextList := 0 }

/-- C8: evaluateImportStatement semantics. Importing a name that is already
bound (anywhere on the scope chain) is a silent no-op returning Null and
leaving the state — in particular the environment — untouched; among names
not yet bound, only the single fixed builtin module name "zyloruntime"
succeeds, binding it in the current scope, and every other unbound name is
the reported Module-not-found error; and importing is idempotent: once
an import has succeeded, repeating it is the silent no-op. -/
theorem c8_import_semantics (fuel : Nat) (st : EvalState) (name : String) :
    ((∃ v, envGet st name = some v) →
      evalStmt (fuel + 1) (.importStmt name) st = (st, .ok .VNull))
    ∧ (envGet st name = none → name ≠ "zyloruntime" →
      evalStmt (fuel + 1) (.importStmt name) st
        = (st, .error ("Module '" ++ name ++ "' not found")))
    ∧ (envGet st "zyloruntime" = none →
      evalStmt (fuel + 1) (.importStmt "zyloruntime") st
        = (setVarCur st "zyloruntime" (.VString "zyloruntime_module"), .ok .VNull))
    ∧ (∀ st1 v, (∃ fr, findEnv st st.envId = some fr) →
      evalStmt (fuel + 1) (.importStmt name) st = (st1, .ok v) →
      evalStmt (fuel + 1) (.importStmt name) st1 = (st1, .ok .VNull)) := by
  refine ⟨?_, ?_, ?_, ?_⟩
  · rintro ⟨v, hv⟩
    simp [evalStmt, hv]
  · intro hv hne
    simp [evalStmt, hv, hne]
  · intro hv
    simp [evalStmt, hv]
  · intro st1 v hfr h
    rcases hv : envGet st name with _ | w
    · simp only [evalStmt, hv] at h
      by_cases hz : name = "zyloruntime"
      · rw [if_pos hz] at h
        have hst1 : st1 = setVarCur st name (.VString "zyloruntime_module") := by
          have := congrArg Prod.fst h
          simpa using this.symm
        have hbound : envGet st1 name = some (.VString "zyloruntime_module") := by
          rw [hst1]
          exact envGet_setVarCur_self st name _ hfr
        simp [evalStmt, hbound]
      · rw [if_neg hz] at h
        exact absurd (congrArg Prod.snd h) (by simp)
    · simp only [evalStmt, hv] at h
      have hst1 : st1 = st := (congrArg Prod.fst h).symm
      subst hst1
      simp [evalStmt, hv]

/-- Witness for c8_import_semantics: an already-bound builtin name ("len") is
a silent no-op; an unknown name ("fantasma") is the reported error; in a
state without the builtin bindings, importing "zyloruntime" binds it;
and importing "zyloruntime" in the initial state (where it is bound) is
already idempotent. -/
theorem c8_import_semantics_witness :
    (evalStmt 9 (.importStmt "len") initialState = (initialState, .ok .VNull))
    ∧ (evalStmt 9 (.importStmt "fantasma") initialState
        = (initialState, .error "Module 'fantasma' not found"))
    ∧ (evalStmt 9 (.importStmt "zyloruntime") bareState
        = (setVarCur bareState "zyloruntime" (.VString "zyloruntime_module"), .ok .VNull))
    ∧ (evalStmt 9 (.importStmt "zyloruntime") initialState = (initialState, .ok .VNull)) :=
  ⟨(c8_import_semantics 8 initialState "len").1 ⟨.VBuiltin .lenB, rfl⟩,
   (c8_import_semantics 8 initialState "fantasma").2.1 rfl (by decide),
   (c8_import_semantics 8 bareState "zyloruntime").2.2.1 rfl,
   (c8_import_semantics 8 initialState "zyloruntime").2.2.2 initialState .VNull
     ⟨⟨builtinBindings, none⟩, rfl⟩ rfl⟩

/-- C1 counterexample: the runtime Null object is truthy — isTruthy only
returns false for the absent (Go nil) interface value, and the Null object
falls through the Boolean/Integer/String cases to the final true. -/
theorem c1_null_object_is_truthy : isTruthy (some .VNull) = true := rfl

/-- C1 as amended: the truthiness table of isTruthy — the absent (nil) value
is false; the Null object is true; a Boolean is its own value; an Integer
is false exactly when zero; a String is false exactly when empty; every
value of any other kind is true. -/
theorem c1_truthiness_table :
    isTruthy none = false
    ∧ isTruthy (some .VNull) = true
    ∧ (∀ b, isTruthy (some (.VBool b)) = b)
    ∧ (∀ n : Int, isTruthy (some (.VInt n)) = decide (n ≠ 0))
    ∧ (∀ s : String, isTruthy (some (.VString s)) = decide (s ≠ ""))
    ∧ (∀ q, isTruthy (some (.VFloat q)) = true)
    ∧ (∀ a, isTruthy (some (.VList a)) = true)
    ∧ (∀ k, isTruthy (some (.VBuiltin k)) = true)
    ∧ (∀ fd, isTruthy (some (.VFunc fd)) = true)
    ∧ (∀ c, isTruthy (some (.VClass c)) = true)
    ∧ (∀ c fl, isTruthy (some (.VInstance c fl)) = true)
    ∧ (∀ c fl m, isTruthy (some (.VBoundMethod c fl m)) = true)
    ∧ isTruthy (some .VBreak) = true
    ∧ isTruthy (some .VContinue) = true := by
  refine ⟨rfl, rfl, fun b => rfl, fun n => ?_, fun s => ?_, fun q => rfl, fun a => rfl,
    fun k => rfl, fun fd => rfl, fun c => rfl, fun c fl => rfl, fun c fl m => rfl, rfl, rfl⟩
  · by_cases h : n = 0 <;> simp [isTruthy, h]
  · simp only [isTruthy]
    rw [decide_eq_decide, gt_iff_lt, String.length, List.length_pos]
    constructor
    · intro hd hs
      exact hd (by simp [hs])
    · intro hs hd
      exact hs (String.ext hd)

/-- C6 counterexample: with a String on the left and a Boolean on the right,
the + operator is an unsupported-operator error, not a concatenation with
the Boolean stringified. -/
theorem c6_string_plus_boolean_is_error :
    applyOperator "+" (.VString "a") (.VBool true)
      = .error "operador '+' no soportado para tipos *evaluator.String y *evaluator.Boolean" := rfl

/-- C6 as amended: + on two numbers is numeric addition (Integer+Integer
stays Integer under 64-bit wrap-around, any Float operand makes the result
Float); a String combined with a String, an Integer or a Float (on either
side) concatenates, the number stringified — in particular "a" + 1 is the
String "a1" —; a String paired with a value of any other kind is an
unsupported-operator error (shown for Null and Boolean, the kinds a Zylo
program can readily produce). -/
theorem c6_plus_semantics :
    (∀ a b : Int, applyOperator "+" (.VInt a) (.VInt b) = .ok (.VInt (wrap64 (a + b))))
    ∧ (∀ (a : Int) (q : Rat), applyOperator "+" (.VInt a) (.VFloat q) = .ok (.VFloat (a + q)))
    ∧ (∀ (q : Rat) (a : Int), applyOperator "+" (.VFloat q) (.VInt a) = .ok (.VFloat (q + a)))
    ∧ (∀ p q : Rat, applyOperator "+" (.VFloat p) (.VFloat q) = .ok (.VFloat (p + q)))
    ∧ (∀ s t : String, applyOperator "+" (.VString s) (.VString t) = .ok (.VString (s ++ t)))
    ∧ (∀ (s : String) (n : Int),
        applyOperator "+" (.VString s) (.VInt n) = .ok (.VString (s ++ toString n)))
    ∧ (∀ (n : Int) (s : String),
        applyOperator "+" (.VInt n) (.VString s) = .ok (.VString (toString n ++ s)))
    ∧ (∀ (s : String) (q : Rat), ∃ t,
        applyOperator "+" (.VString s) (.VFloat q) = .ok (.VString (s ++ t)))
    ∧ (∀ (q : Rat) (s : String), ∃ t,
        applyOperator "+" (.VFloat q) (.VString s) = .ok (.VString (t ++ s)))
    ∧ applyOperator "+" (.VString "a") (.VInt 1) = .ok (.VString "a1")
    ∧ (∀ s : String,
        applyOperator "+" (.VString s) .VNull = .error (unsupportedOp "+" (.VString s) .VNull))
    ∧ (∀ (s : String) (b : Bool),
        applyOperator "+" (.VString s) (.VBool b)
          = .error (unsupportedOp "+" (.VString s) (.VBool b))) :=
  ⟨fun _ _ => rfl, fun _ _ => rfl, fun _ _ => rfl, fun _ _ => rfl, fun _ _ => rfl,
   fun _ _ => rfl, fun _ _ => rfl, fun _ q => ⟨floatRepr q, rfl⟩, fun q _ => ⟨floatRepr q, rfl⟩,
   rfl, fun _ => rfl, fun _ _ => rfl⟩

/-- C7: for every dividend, the / operator with a zero divisor — Integer by
Integer zero, Integer by Float zero, Float by Integer zero and Float by
Float zero alike — is the reported division-by-zero evaluation error: no
value (finite or infinite) is produced and no crash occurs, the error being
an ordinary Except result. -/
theorem c7_division_by_zero_reports_error (a : Int) (p : Rat) :
    applyOperator "/" (.VInt a) (.VInt 0) = .error "división por cero"
    ∧ applyOperator "/" (.VInt a) (.VFloat 0) = .error "división por cero"
    ∧ applyOperator "/" (.VFloat p) (.VInt 0) = .error "división por cero"
    ∧ applyOperator "/" (.VFloat p) (.VFloat 0) = .error "división por cero" :=
  ⟨rfl, rfl, rfl, rfl⟩

/-- C10: equality on two Null values: == yields Boolean false and != yields
Boolean true — no same-kind case for Null exists in applyOperator's
dispatch, so two Nulls fall through to the mismatched-kind constants. -/
theorem c10_null_equality :
    applyOperator "==" .VNull .VNull = .ok (.VBool false)
    ∧ applyOperator "!=" .VNull .VNull = .ok (.VBool true) :=
  ⟨rfl, rfl⟩

/-- A try statement whose body dereferences an undefined variable, with a
catch clause and a finally block present. -/
def c3TryEx : Stmt :=
  .tryStmt (some (.mk [.exprStmt (some (.ident "nope"))])) (some ("e", .mk [])) (some (.mk []))

/-- The state after that failed try: the body block's child frame was
allocated (id 1) and the current environment was restored to the root. -/
def c3ErrState : EvalState :=
  { envId := 0
    envs := [(1, ⟨[], some 0⟩), (0, ⟨builtinBindings, none⟩)]
    listH := []
    nextEnv := 2
    nextList := 0 }

/-- C3 counterexample: when a statement of the try body errors, evaluating
the try statement returns that very error to its caller — the error is
propagated, not ignored. -/
theorem c3_try_returns_body_error :
    (evalStmt 9 c3TryEx initialState).2 = .error "variable no definida: nope" := rfl

/-- C3 as amended: evaluating a try statement evaluates exactly its body
block — whatever catch clause or finally block the statement carries, they
are never consulted, so catch never runs, the thrown value is never bound
and finally never runs — and in particular an evaluation error produced by
the body is returned (propagated) to the try statement's caller, not
ignored. -/
theorem c3_try_executes_body_and_propagates (fuel : Nat) (tb : Block)
    (cc : Option (String × Block)) (fb : Option Block) (st : EvalState) :
    evalStmt (fuel + 1) (.tryStmt (some tb) cc fb) st = evalBlock fuel tb st
    ∧ (∀ msg st1, evalBlock fuel tb st = (st1, .error msg) →
        evalStmt (fuel + 1) (.tryStmt (some tb) cc fb) st = (st1, .error msg)) := by
  refine ⟨rfl, fun msg st1 h => ?_⟩
  rw [show evalStmt (fuel + 1) (.tryStmt (some tb) cc fb) st = evalBlock fuel tb st from rfl, h]

/-- Witness for c3_try_executes_body_and_propagates at the failing try. -/
theorem c3_try_executes_body_and_propagates_witness :
    evalStmt 9 c3TryEx initialState = (c3ErrState, .error "variable no definida: nope") :=
  (c3_try_executes_body_and_propagates 8 (.mk [.exprStmt (some (.ident "nope"))])
    (some ("e", .mk [])) (some (.mk [])) initialState).2
    "variable no definida: nope" c3ErrState rfl

/-- The Zylo program `class C { var xs = [] } var p = C() var q = C()
p.xs.Append(1)` as evaluator input. -/
def c4Prog : List Stmt :=
  [.classDecl "C" [("xs", some (.listLit []))] [],
   .varDecl "p" (some (.call (.ident "C") [])),
   .varDecl "q" (some (.call (.ident "C") [])),
   .exprStmt (some (.call (.member (.member (.ident "p") "xs") "Append") [.intLit 1]))]

/-- C4, violated by the code: the class's List-typed attribute default is
evaluated once (one cell, address 0) and instantiateClass copies the field
map shallowly, so both instances' xs fields hold the same address; after
appending 1 through p, the shared cell holds [1], which q's field also
observes — mutating the default through one instance does affect the
other. -/
theorem c4_list_default_shared_across_instances :
    (evalProgram 32 c4Prog initialState).2 = .ok ()
    ∧ fieldOf ((envGet (evalProgram 32 c4Prog initialState).1 "p").getD .VNull) "xs"
        = some (.VList 0)
    ∧ fieldOf ((envGet (evalProgram 32 c4Prog initialState).1 "q").getD .VNull) "xs"
        = some (.VList 0)
    ∧ getList (evalProgram 32 c4Prog initialState).1 0 = some [.VInt 1] :=
  ⟨rfl, rfl, rfl, rfl⟩

/-- The Zylo program `var x = 0 while (true) { if (true) { break } x = 99 }`
as evaluator input. -/
def c5Prog : List Stmt :=
  [.varDecl "x" (some (.intLit 0)),
   .whileStmt (.boolLit true) (.mk
     [.ifStmt (.boolLit true) (.mk [.breakStmt]) none,
      .exprStmt (some (.binop "=" (.ident "x") (.intLit 99)))])]

/-- C5: the block statement loop stops on a sentinel — whenever a prefix of
a statement list evaluates to a Break or Continue sentinel, appending
further statements changes nothing: they are never evaluated and the
sentinel is returned to the caller as is. Consequently a break nested
inside an if inside a while terminates the whole while loop: the while
statement returns Null, the loop's trailing statement (x = 99) never runs,
and the infinite condition (true) does not loop. -/
theorem c5_sentinel_stops_block_and_break_exits_while :
    (∀ (fuel : Nat) (last : Value) (s1 s2 : List Stmt) (st st1 : EvalState) (v : Value),
      isBC last = false →
      runStmts fuel last s1 st = (st1, .ok v) → isBC v = true →
      runStmts fuel last (s1 ++ s2) st = (st1, .ok v))
    ∧ (evalProgram 40 c5Prog initialState).2 = .ok ()
    ∧ envGet (evalProgram 40 c5Prog initialState).1 "x" = some (.VInt 0)
    ∧ (evalStmt 31 (.whileStmt (.boolLit true) (.mk
        [.ifStmt (.boolLit true) (.mk [.breakStmt]) none,
         .exprStmt (some (.binop "=" (.ident "x") (.intLit 99)))]))
        (setVarCur initialState "x" (.VInt 0))).2 = .ok .VNull := by
  refine ⟨?_, rfl, rfl, rfl⟩
  intro fuel last s1 s2 st st1 v hlast hrun hv
  induction s1 generalizing fuel last st with
  | nil =>
    cases fuel with
    | zero => simp [runStmts] at hrun
    | succ f =>
      simp only [runStmts, List.nil_append] at hrun ⊢
      obtain ⟨hst, hval⟩ := Prod.mk.injEq _ _ _ _ ▸ hrun
      obtain rfl : last = v := by simpa using hval
      rw [hlast] at hv
      exact absurd hv (by simp)
  | cons s rest ih =>
    cases fuel with
    | zero => simp [runStmts] at hrun
    | succ f =>
      simp only [runStmts, List.cons_append] at hrun ⊢
      rcases h1 : evalStmt f s st with ⟨sa, outa⟩
      cases outa with
      | error e => simp [h1] at hrun
      | ok w =>
        by_cases hw : isBC w
        · simp [h1, hw] at hrun ⊢
          exact hrun
        · simp [h1, hw] at hrun ⊢
          exact ih f w sa (by simpa using hw) hrun

/-- Witness for the sentinel clause of
c5_sentinel_stops_block_and_break_exits_while: a Break produced by the
first statement makes the loop return it at once, skipping the appended
statement. -/
theorem c5_sentinel_stops_block_witness :
    runStmts 3 .VNull ([.breakStmt] ++ [.exprStmt none]) initialState
      = (initialState, .ok .VBreak) :=
  c5_sentinel_stops_block_and_break_exits_while.1 3 .VNull [.breakStmt] [.exprStmt none]
    initialState initialState .VBreak rfl rfl rfl

/-- Inside the int64 range, Go's wrap-around is the identity. -/
theorem wrap64_eq_self {x : Int} (h1 : -(2 ^ 63) ≤ x) (h2 : x < 2 ^ 63) : wrap64 x = x := by
  have e1 : (2 : Int) ^ 63 = 9223372036854775808 := by norm_num
  have e2 : (2 : Int) ^ 64 = 18446744073709551616 := by norm_num
  unfold wrap64
  rw [e1, e2]
  rw [e1] at h1 h2
  rw [Int.emod_eq_of_lt (by omega) (by omega)]
  omega

/-- The loop condition x < n of the canonical counter loop. -/
def counterCond (n : Int) : Expr := .binop "<" (.ident "x") (.intLit n)

/-- The loop body x = x + 1 of the canonical counter loop. -/
def counterBody : Block :=
  .mk [.exprStmt (some (.binop "=" (.ident "x") (.binop "+" (.ident "x") (.intLit 1))))]

/-- The canonical counter loop, while (x < n) { x = x + 1 }. -/
def counterLoop (n : Int) : Stmt := .whileStmt (counterCond n) counterBody

/-- A state whose single (enclosing) scope binds x to the Integer k. -/
def counterState (k : Int) : EvalState :=
  { envId := 0
    envs := [(0, ⟨[("x", .VInt k)], none⟩)]
    listH := []
    nextEnv := 1
    nextList := 0 }

/-- One-step unfolding of the while evaluation at positive fuel, for
controlled rewriting. -/
theorem evalStmt_while_unfold (f : Nat) (cond : Expr) (body : Block) (st : EvalState) :
    evalStmt (f + 1) (.whileStmt cond body) st
      = bindR (evalExpr f cond st) fun c st1 =>
          if isTruthy (some c) then
            match runStmts f .VNull body.stmts st1 with
            | (st2, .error e) => (st2, .error e)
            | (st2, .ok v) =>
              if isBreak v then (st2, .ok .VNull)
              else evalStmt f (.whileStmt cond body) st2
          else (st1, .ok .VNull) := rfl

/-- Evaluating the counter condition reads x from the enclosing scope and
leaves the state untouched. -/
theorem counterCond_eval (n k : Int) (f : Nat) (hf : 2 ≤ f) :
    evalExpr f (counterCond n) (counterState k)
      = (counterState k, .ok (.VBool (decide (k < n)))) := by
  obtain ⟨g, rfl⟩ : ∃ g, f = g + 2 := ⟨f - 2, by omega⟩
  simp [counterCond, evalExpr, counterState, envGet, envGetAux, findEnv, alGet, bindR,
    applyOperator]

/-- One pass over the counter body, executed directly (no child frame): the
assignment writes k+1 over x in the very frame that held k, and the state
stays a single-frame state. -/
theorem counterBody_eval (k : Int) (f : Nat) (hf : 5 ≤ f)
    (h1 : -(2 ^ 63) ≤ k + 1) (h2 : k + 1 < 2 ^ 63) :
    runStmts f .VNull counterBody.stmts (counterState k)
      = (counterState (k + 1), .ok (.VInt (k + 1))) := by
  obtain ⟨g, rfl⟩ : ∃ g, f = g + 5 := ⟨f - 5, by omega⟩
  have hwrap : runStmts (g + 5) .VNull counterBody.stmts (counterState k)
      = (counterState (wrap64 (k + 1)), .ok (.VInt (wrap64 (k + 1)))) := rfl
  rw [hwrap, wrap64_eq_self h1 h2]

/-- The canonical counter loop runs to completion inside the enclosing
scope: starting from x = k it terminates with x = n written in the same
single frame — writes persist across iterations and after the loop exits,
and no child environment is ever created (the final state is literally the
entry state with x updated). -/
theorem counterLoop_runs_in_enclosing_scope (n : Int) :
    ∀ (d : Nat) (k : Int) (F : Nat), k + d = n → -(2 ^ 63) ≤ k → n < 2 ^ 63 → d + 5 ≤ F →
      evalStmt (F + 1) (counterLoop n) (counterState k) = (counterState n, .ok .VNull) := by
  intro d
  induction d with
  | zero =>
    intro k F hkn hlo hhi hF
    obtain rfl : k = n := by omega
    simp only [counterLoop]
    rw [evalStmt_while_unfold]
    rw [counterCond_eval _ _ F (by omega)]
    simp [bindR, isTruthy]
  | succ d ih =>
    intro k F hkn hlo hhi hF
    have hklt : k < n := by omega
    obtain ⟨F2, rfl⟩ : ∃ F2, F = F2 + 1 := ⟨F - 1, by omega⟩
    simp only [counterLoop]
    rw [evalStmt_while_unfold]
    rw [counterCond_eval n k (F2 + 1) (by omega)]
    simp only [bindR]
    rw [show isTruthy (some (.VBool (decide (k < n)))) = decide (k < n) from rfl]
    rw [decide_eq_true hklt]
    simp only [if_pos]
    rw [counterBody_eval k (F2 + 1) (by omega) (by omega) (by omega)]
    simp only [isBreak, Bool.false_eq_true, if_neg]
    exact ih (k + 1) F2 (by omega) (by omega) hhi (by omega)

/-- The Zylo program `var x = 1 if (true) { x = 2 }` as evaluator input. -/
def c2IfProg : List Stmt :=
  [.varDecl "x" (some (.intLit 1)),
   .ifStmt (.boolLit true) (.mk [.exprStmt (some (.binop "=" (.ident "x") (.intLit 2)))]) none]

/-- The Zylo program `var x = 1 for y in [10, 20] { x = 2 }` as evaluator
input. -/
def c2ForProg : List Stmt :=
  [.varDecl "x" (some (.intLit 1)),
   .forIn "y" (.listLit [.intLit 10, .intLit 20])
     (.mk [.exprStmt (some (.binop "=" (.ident "x") (.intLit 2)))])]

/-- The Zylo program `var x = 5 if (true) { x = 7 }` as evaluator input. -/
def c2IfProg2 : List Stmt :=
  [.varDecl "x" (some (.intLit 5)),
   .ifStmt (.boolLit true) (.mk [.exprStmt (some (.binop "=" (.ident "x") (.intLit 7)))]) none]

/-- C2 counterexample: an if statement's body does not execute in the
enclosing environment — the body runs through evaluateBlockStatement, which
creates a child environment, and the assignment x = 2 made inside binds in
that child, so after the if the enclosing x is still 1, not 2. -/
theorem c2_if_body_write_does_not_persist :
    (evalProgram 20 c2IfProg initialState).2 = .ok ()
    ∧ envGet (evalProgram 20 c2IfProg initialState).1 "x" = some (.VInt 1) :=
  ⟨rfl, rfl⟩

/-- C2 as amended: only while bodies execute their statements directly in
the enclosing environment, so variable writes there persist across
iterations and after the loop exits — the canonical counter loop
while (x < n) { x = x + 1 } started with x = k in a single-frame state ends
in exactly that state with x = n, no child frame ever allocated. The
bodies of if and for-in statements instead run in a fresh child
environment (a fresh one per for-in iteration), so assignments inside them
bind in the child and do not persist: after `var x = 1; for y in [10, 20]
{ x = 2 }` and after `var x = 5; if (true) { x = 7 }` the enclosing x still
holds its old value. -/
theorem c2_loop_scoping (n k : Int) (d F : Nat) :
    (k + d = n → -(2 ^ 63) ≤ k → n < 2 ^ 63 → d + 5 ≤ F →
      evalStmt (F + 1) (counterLoop n) (counterState k) = (counterState n, .ok .VNull))
    ∧ ((evalProgram 32 c2ForProg initialState).2 = .ok ()
        ∧ envGet (evalProgram 32 c2ForProg initialState).1 "x" = some (.VInt 1))
    ∧ ((evalProgram 20 c2IfProg2 initialState).2 = .ok ()
        ∧ envGet (evalProgram 20 c2IfProg2 initialState).1 "x" = some (.VInt 5)) :=
  ⟨fun h1 h2 h3 h4 => counterLoop_runs_in_enclosing_scope n d k F h1 h2 h3 h4,
   ⟨rfl, rfl⟩, ⟨rfl, rfl⟩⟩

/-- Witness for c2_loop_scoping: the counter loop to 3, started at 0 with
fuel 9, ends with x = 3 in the unchanged single enclosing frame. -/
theorem c2_loop_scoping_witness :
    evalStmt 9 (counterLoop 3) (counterState 0) = (counterState 3, .ok .VNull) :=
  (c2_loop_scoping 3 0 3 8).1 (by norm_num) (by norm_num) (by norm_num) (by norm_num)

end ZyloEval
